import Mathlib

/-!
Verification of the egui_tabular table widget: selection state machine,
paste reconciliation, variant backend, required-column matching and CSV
separator detection, embedded shallowly from the Rust sources.

Rust strings are modelled as `List Char`; `usize`/`u32` values as `Nat`
(Rust subtraction on these types is saturating or guarded in all embedded
code paths); `HashMap` as association lists with insert-replace semantics.
-/

set_option linter.unusedVariables false

namespace EguiTabular

/-- Rust `str::split(sep)` on a character list: splitting an empty string
yields one empty piece, a trailing separator yields a trailing empty piece. -/
def splitOnChar (sep : Char) : List Char → List (List Char)
  | [] => [[]]
  | c :: cs =>
    match splitOnChar sep cs with
    | [] => [[]]
    | piece :: rest => if c = sep then [] :: piece :: rest else (c :: piece) :: rest

/-- Rust `str::trim` on a character list: whitespace removed from both ends. -/
def trimChars (s : List Char) : List Char :=
  ((s.dropWhile Char.isWhitespace).reverse.dropWhile Char.isWhitespace).reverse

/-- `SelectedRange` from `src/table_view/state.rs`: an inclusive rectangle in
visual row/column index space, plus the single-cell editing flag. -/
structure SelectedRange where
  row_start : Nat
  row_end : Nat
  col_start : Nat
  col_end : Nat
  is_editing : Bool
  deriving DecidableEq, Repr

namespace SelectedRange

/-- `SelectedRange::single_cell`. -/
def single_cell (row_idx col_idx : Nat) : SelectedRange :=
  ⟨row_idx, row_idx, col_idx, col_idx, false⟩

/-- `SelectedRange::single_row`. -/
def single_row (row_idx col_count : Nat) : SelectedRange :=
  ⟨row_idx, row_idx, 0, col_count, false⟩

/-- `SelectedRange::rect` (`saturating_sub` is `Nat` subtraction). -/
def rect (width height : Nat) : SelectedRange :=
  ⟨0, height - 1, 0, width - 1, false⟩

/-- `SelectedRange::is_single_cell`. -/
def is_single_cell (r : SelectedRange) : Bool :=
  r.row_start == r.row_end && r.col_start == r.col_end

/-- `SelectedRange::set_editing`: only assigns when the argument is true. -/
def set_editing (r : SelectedRange) (b : Bool) : SelectedRange :=
  if b then { r with is_editing := r.is_single_cell } else r

/-- `SelectedRange::swap_col`: two sequential (non-exclusive) `if` statements,
exactly as in the source. -/
def swap_col (r : SelectedRange) (col1_idx col2_idx : Nat) : SelectedRange :=
  if !r.is_single_cell then r
  else
    let r1 :=
      if r.col_start = col1_idx then { r with col_start := col2_idx, col_end := col2_idx } else r
    if r1.col_start = col2_idx then { r1 with col_start := col1_idx, col_end := col1_idx } else r1

/-- `SelectedRange::stretch_to`. -/
def stretch_to (r : SelectedRange) (row_idx col_idx : Nat) : SelectedRange :=
  let r1 := if row_idx > r.row_end then { r with row_end := row_idx } else r
  let r2 := if row_idx < r1.row_start then { r1 with row_start := row_idx } else r1
  let r3 := if col_idx > r2.col_end then { r2 with col_end := col_idx } else r2
  let r4 := if col_idx < r3.col_start then { r3 with col_start := col_idx } else r3
  if !r4.is_single_cell then { r4 with is_editing := false } else r4

/-- `SelectedRange::stretch_multi_row`. -/
def stretch_multi_row (r : SelectedRange) (row_idx col_count : Nat) : SelectedRange :=
  let r1 :=
    if row_idx < r.row_start then { r with row_start := row_idx }
    else if row_idx > r.row_end then { r with row_end := row_idx }
    else r
  { r1 with col_start := 0, col_end := col_count }

/-- `SelectedRange::contains`. -/
def contains (r : SelectedRange) (row_idx col_idx : Nat) : Bool :=
  decide (row_idx ≥ r.row_start) && decide (row_idx ≤ r.row_end) &&
    decide (col_idx ≥ r.col_start) && decide (col_idx ≤ r.col_end)

/-- `SelectedRange::move_left`. -/
def move_left (r : SelectedRange) (expand : Bool) : SelectedRange :=
  if r.col_start > 0 then
    let r1 := { r with col_start := r.col_start - 1 }
    if !expand then { r1 with col_end := r1.col_end - 1 } else r1
  else r

/-- `SelectedRange::move_right`. -/
def move_right (r : SelectedRange) (expand : Bool) (col_count : Nat) : SelectedRange :=
  if r.col_end < col_count - 1 then
    let r1 := { r with col_end := r.col_end + 1 }
    if !expand then { r1 with col_start := r1.col_start + 1 } else r1
  else r

/-- `SelectedRange::move_up`. -/
def move_up (r : SelectedRange) (expand : Bool) : SelectedRange :=
  if r.row_start > 0 then
    let r1 := { r with row_start := r.row_start - 1 }
    if !expand then { r1 with row_end := r1.row_end - 1 } else r1
  else r

/-- `SelectedRange::move_down`. -/
def move_down (r : SelectedRange) (expand : Bool) (row_count : Nat) : SelectedRange :=
  if r.row_end < row_count - 1 then
    let r1 := { r with row_end := r.row_end + 1 }
    if !expand then { r1 with row_start := r1.row_start + 1 } else r1
  else r

/-- `SelectedRange::width`. -/
def width (r : SelectedRange) : Nat := r.col_end - r.col_start + 1

/-- `SelectedRange::height`. -/
def height (r : SelectedRange) : Nat := r.row_end - r.row_start + 1

end SelectedRange

/-- The `SelectedRange` operations named in the selection-invariant claim. -/
inductive SelOp where
  | singleCellOp (row col : Nat)
  | singleRowOp (row colCount : Nat)
  | rectOp (w h : Nat)
  | setEditingOp (b : Bool)
  | stretchToOp (row col : Nat)
  | stretchMultiRowOp (row colCount : Nat)
  | swapColOp (c1 c2 : Nat)
  | moveLeftOp (expand : Bool)
  | moveRightOp (expand : Bool) (colCount : Nat)
  | moveUpOp (expand : Bool)
  | moveDownOp (expand : Bool) (rowCount : Nat)
  deriving DecidableEq, Repr

/-- One `SelectedRange` operation applied to the current state (the three
constructors replace the state, as at their call sites). -/
def selStep (r : SelectedRange) : SelOp → SelectedRange
  | .singleCellOp row col => SelectedRange.single_cell row col
  | .singleRowOp row colCount => SelectedRange.single_row row colCount
  | .rectOp w h => SelectedRange.rect w h
  | .setEditingOp b => r.set_editing b
  | .stretchToOp row col => r.stretch_to row col
  | .stretchMultiRowOp row colCount => r.stretch_multi_row row colCount
  | .swapColOp c1 c2 => r.swap_col c1 c2
  | .moveLeftOp e => r.move_left e
  | .moveRightOp e cc => r.move_right e cc
  | .moveUpOp e => r.move_up e
  | .moveDownOp e rc => r.move_down e rc

/-- A sequence of `SelectedRange` operations. -/
def selRun (r : SelectedRange) (ops : List SelOp) : SelectedRange := ops.foldl selStep r

/-- The selection invariant of the spec: editing implies a 1x1 rectangle. -/
def editingInv (r : SelectedRange) : Prop :=
  r.is_editing = true → r.row_start = r.row_end ∧ r.col_start = r.col_end

instance (r : SelectedRange) : Decidable (editingInv r) := by
  unfold editingInv; infer_instance

/-- Operations that do preserve the editing invariant: everything except
`stretch_multi_row` and the four moves with `expand = true`. -/
def allowedSelOp : SelOp → Bool
  | .stretchMultiRowOp _ _ => false
  | .moveLeftOp e => !e
  | .moveRightOp e _ => !e
  | .moveUpOp e => !e
  | .moveDownOp e _ => !e
  | _ => true

theorem is_single_cell_iff (r : SelectedRange) :
    r.is_single_cell = true ↔ r.row_start = r.row_end ∧ r.col_start = r.col_end := by
  simp [SelectedRange.is_single_cell]

theorem stretch_to_editingInv (r : SelectedRange) (row col : Nat) :
    editingInv (r.stretch_to row col) := by
  obtain ⟨rs, re, cs, ce, ed⟩ := r
  simp only [SelectedRange.stretch_to, editingInv]
  split_ifs <;> simp_all [SelectedRange.is_single_cell]

theorem swap_col_editingInv (r : SelectedRange) (c1 c2 : Nat) (hr : editingInv r) :
    editingInv (r.swap_col c1 c2) := by
  obtain ⟨rs, re, cs, ce, ed⟩ := r
  simp only [SelectedRange.swap_col, editingInv, SelectedRange.is_single_cell] at hr ⊢
  split_ifs <;> simp_all

theorem move_left_editingInv (r : SelectedRange) (hr : editingInv r) :
    editingInv (r.move_left false) := by
  obtain ⟨rs, re, cs, ce, ed⟩ := r
  simp only [SelectedRange.move_left, editingInv] at hr ⊢
  split_ifs <;> simp_all

theorem move_right_editingInv (r : SelectedRange) (cc : Nat) (hr : editingInv r) :
    editingInv (r.move_right false cc) := by
  obtain ⟨rs, re, cs, ce, ed⟩ := r
  simp only [SelectedRange.move_right, editingInv] at hr ⊢
  split_ifs <;> simp_all

theorem move_up_editingInv (r : SelectedRange) (hr : editingInv r) :
    editingInv (r.move_up false) := by
  obtain ⟨rs, re, cs, ce, ed⟩ := r
  simp only [SelectedRange.move_up, editingInv] at hr ⊢
  split_ifs <;> simp_all

theorem move_down_editingInv (r : SelectedRange) (rc : Nat) (hr : editingInv r) :
    editingInv (r.move_down false rc) := by
  obtain ⟨rs, re, cs, ce, ed⟩ := r
  simp only [SelectedRange.move_down, editingInv] at hr ⊢
  split_ifs <;> simp_all

theorem selStep_preserves (r : SelectedRange) (op : SelOp)
    (hr : editingInv r) (hop : allowedSelOp op = true) : editingInv (selStep r op) := by
  cases op with
  | singleCellOp row col => intro h; simp [SelectedRange.single_cell, selStep] at h
  | singleRowOp row cc => intro h; simp [SelectedRange.single_row, selStep] at h
  | rectOp w h => intro hh; simp [SelectedRange.rect, selStep] at hh
  | setEditingOp b =>
    obtain ⟨rs, re, cs, ce, ed⟩ := r
    simp only [selStep, SelectedRange.set_editing, editingInv,
      SelectedRange.is_single_cell] at hr ⊢
    split_ifs <;> simp_all
  | stretchToOp row col => exact stretch_to_editingInv r row col
  | stretchMultiRowOp row cc => simp [allowedSelOp] at hop
  | swapColOp c1 c2 => exact swap_col_editingInv r c1 c2 hr
  | moveLeftOp e =>
    simp only [allowedSelOp, Bool.not_eq_true'] at hop
    subst hop
    exact move_left_editingInv r hr
  | moveRightOp e cc =>
    simp only [allowedSelOp, Bool.not_eq_true'] at hop
    subst hop
    exact move_right_editingInv r cc hr
  | moveUpOp e =>
    simp only [allowedSelOp, Bool.not_eq_true'] at hop
    subst hop
    exact move_up_editingInv r hr
  | moveDownOp e rc =>
    simp only [allowedSelOp, Bool.not_eq_true'] at hop
    subst hop
    exact move_down_editingInv r rc hr

/-- Claim C1, counterexample: the invariant `editing => 1x1` is violated by
reachable states. After `single_cell(0,0); set_editing(true)` the call
`stretch_multi_row(0,1)` widens the rectangle to columns `0..=1` without
clearing `is_editing`; likewise each of the four moves with `expand = true`
from an editing cell at `(2,2)` widens the rectangle with `is_editing` still
set. -/
theorem C1_counterexample :
    ¬ editingInv (selRun (SelectedRange.single_cell 0 0)
        [.setEditingOp true, .stretchMultiRowOp 0 1]) ∧
    ¬ editingInv (selRun (SelectedRange.single_cell 2 2)
        [.setEditingOp true, .moveLeftOp true]) ∧
    ¬ editingInv (selRun (SelectedRange.single_cell 2 2)
        [.setEditingOp true, .moveRightOp true 10]) ∧
    ¬ editingInv (selRun (SelectedRange.single_cell 2 2)
        [.setEditingOp true, .moveUpOp true]) ∧
    ¬ editingInv (selRun (SelectedRange.single_cell 2 2)
        [.setEditingOp true, .moveDownOp true 10]) := by decide

/-- Claim C1 (amended): starting from any state satisfying the invariant
(in particular any state built by `single_cell`, `single_row` or `rect`),
any sequence of the listed operations that never uses `stretch_multi_row`
and only uses the four move operations with `expand = false` preserves the
invariant: `is_editing = true` implies the selection is a single 1x1 cell. -/
theorem C1_editing_invariant (r : SelectedRange) (ops : List SelOp)
    (hr : editingInv r) (hops : ∀ op ∈ ops, allowedSelOp op = true) :
    editingInv (selRun r ops) := by
  induction ops generalizing r with
  | nil => exact hr
  | cons op ops ih =>
    exact ih _ (selStep_preserves r op hr (hops op (List.mem_cons_self _ _)))
      (fun o ho => hops o (List.mem_cons_of_mem _ ho))

/-- Witness for C1: a concrete mixed run through the allowed operations
keeps the invariant. -/
theorem C1_editing_invariant_witness :
    editingInv (SelectedRange.single_cell 0 0) ∧
    (∀ op ∈ [SelOp.setEditingOp true, .moveRightOp false 5, .stretchToOp 2 3,
      .swapColOp 1 4, .setEditingOp true, .moveDownOp false 10], allowedSelOp op = true) ∧
    editingInv (selRun (SelectedRange.single_cell 0 0)
      [.setEditingOp true, .moveRightOp false 5, .stretchToOp 2 3,
        .swapColOp 1 4, .setEditingOp true, .moveDownOp false 10]) :=
  ⟨by decide, by decide,
    C1_editing_invariant _ _ (by decide) (by decide)⟩

/-- `CellCoord`: a (row uid, column uid) pair. -/
structure CellCoord where
  row_uid : Nat
  col_uid : Nat
  deriving DecidableEq, Repr

/-- The paste-relevant projection of `UiColumn` (`src/table_view.rs`): the
backend column uid and the declared type. -/
structure UiColumnModel (VTy : Type) where
  col_uid : Nat
  ty : VTy
  deriving DecidableEq, Repr

/-- The paste-relevant fields of the widget `State` (`src/table_view.rs`). -/
structure StateModel (VTy : Type) where
  columns : List (UiColumnModel VTy)
  selected_range : Option SelectedRange
  about_to_paste_rows : List (List (List Char))
  pasting_block_with_holes : Bool
  pasting_block_width : Nat
  create_rows_on_paste : Bool
  fill_with_same_on_paste : Bool
  create_adhoc_cols_on_paste : Bool
  deriving DecidableEq, Repr

/-- The outcome of `TableView::handle_paste` as visible to backend and user. -/
inductive PasteOutcome (Val : Type) where
  | appliedImmediately (writes : List (CellCoord × Val))
  | modalOpened
  | refusedNoSelection
  | emptyRows
  deriving DecidableEq, Repr

/-- Clipboard parsing in `handle_paste`: split the text on newline, split each
row on tab, trim each cell. -/
def parsePasteText (text : List Char) : List (List (List Char)) :=
  (splitOnChar '\n' text).map fun row => (splitOnChar '\t' row).map trimChars

/-- The `pasting_block_width` / `is_equal_lengths` computation of
`handle_paste`: width starts at `rows[0].len()` and is overwritten with
`l1.max(l2)` for every adjacent pair of row lengths (`tuple_windows`), while
the fold accumulates the sum of `l1 - l2`; `is_equal_lengths` tests that this
sum is zero. Returns `(width, is_equal_lengths)`. -/
def pasteWidthHoles (rows : List (List (List Char))) : Nat × Bool :=
  let lens := rows.map List.length
  let res := (lens.zip lens.tail).foldl
    (fun acc p => (max p.1 p.2, acc.2 + (p.1 : Int) - (p.2 : Int)))
    ((rows.headD []).length, (0 : Int))
  (res.1, res.2 == 0)

/-- First `n` elements of Rust `iter().cycle()` over `bs` (cycling an empty
iterator yields an empty iterator). -/
def cycleTake {α : Type} (n : Nat) (bs : List α) : List α :=
  if h : bs.length = 0 then []
  else (List.range n).map fun i => bs.get ⟨i % bs.length, Nat.mod_lt _ (Nat.pos_of_ne_zero h)⟩

/-- The write loop of `paste_block` with `fill_with_same_on_paste` set: block
rows and cells are cycled (modulo wraparound); unresolved (`None`) row or
column ids are silently skipped. -/
def pasteWritesFill {VTy Val : Type} (fromStr : List Char → VTy → Val)
    (rowIds : List (Option Nat)) (colIds : List (Option (Nat × VTy)))
    (blockRows : List (List (List Char))) : List (CellCoord × Val) :=
  (rowIds.zip (cycleTake rowIds.length blockRows)).flatMap fun rr =>
    match rr.1 with
    | none => []
    | some rid =>
      (colIds.zip (cycleTake colIds.length rr.2)).filterMap fun cc =>
        match cc.1 with
        | none => none
        | some ct => some (⟨rid, ct.1⟩, fromStr cc.2 ct.2)

/-- The write loop of `paste_block` without fill: plain `zip`, so excess
selection rows/columns receive nothing. -/
def pasteWritesPlain {VTy Val : Type} (fromStr : List Char → VTy → Val)
    (rowIds : List (Option Nat)) (colIds : List (Option (Nat × VTy)))
    (blockRows : List (List (List Char))) : List (CellCoord × Val) :=
  (rowIds.zip blockRows).flatMap fun rr =>
    match rr.1 with
    | none => []
    | some rid =>
      (colIds.zip rr.2).filterMap fun cc =>
        match cc.1 with
        | none => none
        | some ct => some (⟨rid, ct.1⟩, fromStr cc.2 ct.2)

/-- `TableView::paste_block`: resolve row uids across the selection height
(appending `create_row` results when `create_rows_on_paste` is set and the
block is taller), resolve column uid/type pairs across the selection width,
run the write loop, and clear the pending block. `rowUidFn` is the backend's
visual-row-index-to-uid map; `createRowFn k` is the uid returned by the k-th
`create_row` call; the returned list is the ordered sequence of `modify_one`
writes. -/
def pasteBlock {VTy Val : Type} (fromStr : List Char → VTy → Val)
    (rowUidFn : Nat → Option Nat) (createRowFn : Nat → Option Nat)
    (st : StateModel VTy) : StateModel VTy × List (CellCoord × Val) :=
  match st.selected_range with
  | none => (st, [])
  | some sel =>
    let rowIds0 := (List.range sel.height).map fun i => rowUidFn (i + sel.row_start)
    let rowIds :=
      if st.create_rows_on_paste && decide (st.about_to_paste_rows.length > sel.height) then
        rowIds0 ++ (List.range (st.about_to_paste_rows.length - sel.height)).map createRowFn
      else rowIds0
    let colIds := (List.range sel.width).map fun j =>
      (st.columns[j + sel.col_start]?).map fun c => (c.col_uid, c.ty)
    let writes :=
      if st.fill_with_same_on_paste then
        pasteWritesFill fromStr rowIds colIds st.about_to_paste_rows
      else
        pasteWritesPlain fromStr rowIds colIds st.about_to_paste_rows
    ({ st with about_to_paste_rows := [] }, writes)

/-- `TableView::handle_paste` on clipboard text: parse, compute width and the
holes flag, then either apply immediately (exact fit, no holes), open the
confirmation modal, or refuse when no selection exists. -/
def handlePaste {VTy Val : Type} (fromStr : List Char → VTy → Val)
    (rowUidFn : Nat → Option Nat) (createRowFn : Nat → Option Nat)
    (st : StateModel VTy) (text : List Char) : StateModel VTy × PasteOutcome Val :=
  let rows := parsePasteText text
  if rows.isEmpty then (st, .emptyRows)
  else
    let wh := pasteWidthHoles rows
    let st1 := { st with pasting_block_width := wh.1, pasting_block_with_holes := !wh.2 }
    match st1.selected_range with
    | some sel =>
      let selection_is_exact := rows.length == sel.height && wh.1 == sel.width && wh.2
      let st2 := { st1 with about_to_paste_rows := rows }
      if selection_is_exact then
        let r := pasteBlock fromStr rowUidFn createRowFn st2
        (r.1, .appliedImmediately r.2)
      else
        ({ st2 with
            create_rows_on_paste := false
            fill_with_same_on_paste := false
            create_adhoc_cols_on_paste := false }, .modalOpened)
    | none => (st1, .refusedNoSelection)

theorem cycleTake_length_self {α : Type} (bs : List α) : cycleTake bs.length bs = bs := by
  unfold cycleTake
  split
  · next h => simp [List.length_eq_zero.mp h]
  · next h =>
    apply List.ext_getElem
    · simp
    · intro i h1 h2
      have hi : i % bs.length = i := Nat.mod_eq_of_lt (by simpa using h2)
      simp [List.get_eq_getElem, hi]

theorem exists_map_some {α : Type} (l : List (Option α)) (h : ∀ o ∈ l, o.isSome) :
    ∃ l' : List α, l = l'.map some := by
  induction l with
  | nil => exact ⟨[], rfl⟩
  | cons a t ih =>
    obtain ⟨t', ht⟩ := ih fun o ho => h o (List.mem_cons_of_mem _ ho)
    obtain ⟨a', ha⟩ := Option.isSome_iff_exists.mp (h a (List.mem_cons_self _ _))
    exact ⟨a' :: t', by simp [ha, ht]⟩

theorem foldl_maxsub_replicate (k w : Nat) (acc : Int) :
    (List.replicate k ((w, w) : Nat × Nat)).foldl
      (fun acc p => (max p.1 p.2, acc.2 + (p.1 : Int) - (p.2 : Int))) (w, acc) = (w, acc) := by
  induction k with
  | zero => rfl
  | succ n ih =>
    simpa only [List.replicate_succ, List.foldl_cons, max_self, add_sub_cancel_right] using ih

/-- On a block whose rows all have the same length `w`, the width/holes fold
computes width `w` and `is_equal_lengths = true`. -/
theorem pasteWidthHoles_const (rows : List (List (List Char))) (w : Nat)
    (hne : rows ≠ []) (hall : ∀ r ∈ rows, r.length = w) :
    pasteWidthHoles rows = (w, true) := by
  obtain ⟨r0, rest, rfl⟩ := List.exists_cons_of_ne_nil hne
  have hlens : (r0 :: rest).map List.length = List.replicate (rest.length + 1) w := by
    have hmem : ∀ b ∈ (r0 :: rest).map List.length, b = w := by
      intro b hb
      obtain ⟨r, hr, rfl⟩ := List.mem_map.mp hb
      exact hall r hr
    simpa using List.eq_replicate_of_mem hmem
  have h0 : r0.length = w := hall r0 (List.mem_cons_self _ _)
  unfold pasteWidthHoles
  simp only [hlens, List.tail_replicate, List.zip_replicate, List.headD_cons, h0]
  have hmin : min (rest.length + 1) (rest.length + 1 - 1) = rest.length := by omega
  rw [hmin, foldl_maxsub_replicate]
  simp

theorem flatMap_congr_mem {α β : Type} (l : List α) (f g : α → List β)
    (h : ∀ a ∈ l, f a = g a) : l.flatMap f = l.flatMap g := by
  induction l with
  | nil => rfl
  | cons a t ih =>
    simp only [List.flatMap_cons, h a (List.mem_cons_self _ _),
      ih fun b hb => h b (List.mem_cons_of_mem _ hb)]

/-- When the block's shape matches the resolved row/column id lists exactly,
the cycling write loop coincides with the plain one. -/
theorem pasteWritesFill_eq_plain {VTy Val : Type} (fromStr : List Char → VTy → Val)
    (rowIds : List (Option Nat)) (colIds : List (Option (Nat × VTy)))
    (rows : List (List (List Char)))
    (h1 : rowIds.length = rows.length)
    (h2 : ∀ r ∈ rows, r.length = colIds.length) :
    pasteWritesFill fromStr rowIds colIds rows =
      pasteWritesPlain fromStr rowIds colIds rows := by
  unfold pasteWritesFill pasteWritesPlain
  rw [h1, cycleTake_length_self]
  apply flatMap_congr_mem
  intro rr hrr
  have hmem : rr.2 ∈ rows := (List.of_mem_zip hrr).2
  cases hr : rr.1 with
  | none => simp [hr]
  | some rid =>
    simp only [hr]
    rw [← h2 rr.2 hmem, cycleTake_length_self]

theorem pasteWritesInner_all_some {VTy Val : Type} (fromStr : List Char → VTy → Val)
    (rid : Nat) (cts : List (Nat × VTy)) (row : List (List Char)) :
    ((cts.map some).zip row).filterMap
      (fun cc => match cc.1 with
        | none => none
        | some ct => some ((⟨rid, ct.1⟩ : CellCoord), fromStr cc.2 ct.2)) =
      (cts.zip row).map fun cc => (⟨rid, cc.1.1⟩, fromStr cc.2 cc.1.2) := by
  induction cts generalizing row with
  | nil => simp
  | cons c cs ih =>
    cases row with
    | nil => simp
    | cons x xs =>
      simp only [List.map_cons, List.zip_cons_cons, List.filterMap_cons, ih]

/-- The plain write loop over fully resolved ids is a nested map. -/
theorem pasteWritesPlain_all_some {VTy Val : Type} (fromStr : List Char → VTy → Val)
    (ris : List Nat) (cts : List (Nat × VTy)) (rows : List (List (List Char))) :
    pasteWritesPlain fromStr (ris.map some) (cts.map some) rows =
      (ris.zip rows).flatMap fun rr =>
        (cts.zip rr.2).map fun cc =>
          ((⟨rr.1, cc.1.1⟩ : CellCoord), fromStr cc.2 cc.1.2) := by
  unfold pasteWritesPlain
  induction ris generalizing rows with
  | nil => simp
  | cons r rs ih =>
    cases rows with
    | nil => simp
    | cons row rows' =>
      simp only [List.map_cons, List.zip_cons_cons, List.flatMap_cons]
      rw [ih]
      congr 1
      exact pasteWritesInner_all_some fromStr r cts row

theorem length_flatMap_const {α β : Type} (l : List α) (f : α → List β) (w : Nat)
    (h : ∀ a ∈ l, (f a).length = w) : (l.flatMap f).length = l.length * w := by
  induction l with
  | nil => simp
  | cons a t ih =>
    simp only [List.flatMap_cons, List.length_append, List.length_cons,
      h a (List.mem_cons_self _ _), ih fun b hb => h b (List.mem_cons_of_mem _ hb)]
    ring

theorem getElem?_flatMap_const {α β : Type} (l : List α) (f : α → List β) (w : Nat)
    (hw : ∀ a ∈ l, (f a).length = w) (i j : Nat) (hi : i < l.length) (hj : j < w) :
    (l.flatMap f)[i * w + j]? = (f (l.get ⟨i, hi⟩))[j]? := by
  induction l generalizing i with
  | nil => simp at hi
  | cons a t ih =>
    cases i with
    | zero =>
      simp only [List.flatMap_cons, List.get_eq_getElem, List.getElem_cons_zero,
        Nat.zero_mul, Nat.zero_add]
      exact List.getElem?_append_left (by rw [hw a (List.mem_cons_self _ _)]; exact hj)
    | succ i =>
      simp only [List.flatMap_cons]
      have hlen : (f a).length = w := hw a (List.mem_cons_self _ _)
      have hidx : (i + 1) * w + j = (f a).length + (i * w + j) := by rw [hlen]; ring
      rw [hidx, List.getElem?_append_right (Nat.le_add_right _ _), Nat.add_sub_cancel_left]
      have hi' : i < t.length := by simpa using Nat.lt_of_succ_lt_succ (by simpa using hi)
      have := ih (fun b hb => hw b (List.mem_cons_of_mem _ hb)) i hi'
      simpa using this

theorem getElem?_zip_some {α β : Type} (l1 : List α) (l2 : List β) (i : Nat) (a : α) (b : β)
    (h1 : l1[i]? = some a) (h2 : l2[i]? = some b) : (l1.zip l2)[i]? = some (a, b) := by
  rw [List.getElem?_zip_eq_some]; exact ⟨h1, h2⟩

/-- Claim C2 evaluated at failing inputs. For clipboard text `a TAB b TAB c
NL d NL e` (row lengths 3,1,1) the computed `pasting_block_width` is 1 while
the maximum row length is 3: the fold keeps only the last adjacent pair's
max. For text `a NL b TAB c NL d` (row lengths 1,2,1) the computed
`pasting_block_with_holes` flag is false although the row lengths differ:
the fold's sum of differences telescopes to first length minus last length. -/
theorem C2_width_holes_failing_inputs :
    ((parsePasteText ['a', '\t', 'b', '\t', 'c', '\n', 'd', '\n', 'e']).map List.length
        = [3, 1, 1] ∧
      (pasteWidthHoles
        (parsePasteText ['a', '\t', 'b', '\t', 'c', '\n', 'd', '\n', 'e'])).1 = 1) ∧
    ((parsePasteText ['a', '\n', 'b', '\t', 'c', '\n', 'd']).map List.length = [1, 2, 1] ∧
      (!(pasteWidthHoles (parsePasteText ['a', '\n', 'b', '\t', 'c', '\n', 'd'])).2) = false) := by
  decide

/-- Core exact-fit property of `paste_block`: when the pending block matches
the selection shape and every selected row and column index resolves, exactly
height*width cells are written, row-major, each value being the source cell
converted with the destination column's declared type. -/
theorem pasteBlock_exact {VTy Val : Type} (fromStr : List Char → VTy → Val)
    (rowUidFn createRowFn : Nat → Option Nat) (st2 : StateModel VTy) (sel : SelectedRange)
    (hsel : st2.selected_range = some sel)
    (hlen : st2.about_to_paste_rows.length = sel.height)
    (hwidth : ∀ row ∈ st2.about_to_paste_rows, row.length = sel.width)
    (hrow : ∀ i, i < sel.height → (rowUidFn (i + sel.row_start)).isSome)
    (hcol : ∀ j, j < sel.width → (st2.columns[j + sel.col_start]?).isSome) :
    (pasteBlock fromStr rowUidFn createRowFn st2).2.length = sel.height * sel.width ∧
    (∀ i j, i < sel.height → j < sel.width →
      ∃ rid c row cell,
        rowUidFn (i + sel.row_start) = some rid ∧
        st2.columns[j + sel.col_start]? = some c ∧
        st2.about_to_paste_rows[i]? = some row ∧ row[j]? = some cell ∧
        (pasteBlock fromStr rowUidFn createRowFn st2).2[i * sel.width + j]? =
          some (⟨rid, c.col_uid⟩, fromStr cell c.ty)) := by
  obtain ⟨ris, hris⟩ := exists_map_some
    ((List.range sel.height).map fun i => rowUidFn (i + sel.row_start)) (by
      intro o ho
      obtain ⟨i, hi, rfl⟩ := List.mem_map.mp ho
      exact hrow i (List.mem_range.mp hi))
  obtain ⟨cts, hcts⟩ := exists_map_some
    ((List.range sel.width).map fun j =>
      (st2.columns[j + sel.col_start]?).map fun c => (c.col_uid, c.ty)) (by
      intro o ho
      obtain ⟨j, hj, rfl⟩ := List.mem_map.mp ho
      simpa using hcol j (List.mem_range.mp hj))
  have hrislen : ris.length = sel.height := by
    have := congrArg List.length hris
    simpa using this.symm
  have hctslen : cts.length = sel.width := by
    have := congrArg List.length hcts
    simpa using this.symm
  have hinner : ∀ rr ∈ ris.zip st2.about_to_paste_rows,
      ((cts.zip rr.2).map fun cc =>
        ((⟨rr.1, cc.1.1⟩ : CellCoord), fromStr cc.2 cc.1.2)).length = sel.width := by
    intro rr hrr
    rw [List.length_map, List.length_zip, hctslen,
      hwidth rr.2 (List.of_mem_zip hrr).2, Nat.min_self]
  have hwrites : (pasteBlock fromStr rowUidFn createRowFn st2).2 =
      (ris.zip st2.about_to_paste_rows).flatMap fun rr =>
        (cts.zip rr.2).map fun cc =>
          ((⟨rr.1, cc.1.1⟩ : CellCoord), fromStr cc.2 cc.1.2) := by
    simp only [pasteBlock, hsel]
    rw [hlen]
    simp only [gt_iff_lt, lt_self_iff_false, decide_False, Bool.and_false,
      Bool.false_eq_true, if_false]
    rw [hris, hcts]
    split
    · rw [pasteWritesFill_eq_plain fromStr _ _ _
        (by simp [hrislen, hlen]) (by intro r hr; simp [hctslen, hwidth r hr])]
      exact pasteWritesPlain_all_some fromStr ris cts st2.about_to_paste_rows
    · exact pasteWritesPlain_all_some fromStr ris cts st2.about_to_paste_rows
  have hziplen : (ris.zip st2.about_to_paste_rows).length = sel.height := by
    rw [List.length_zip, hrislen, hlen, Nat.min_self]
  constructor
  · rw [hwrites, length_flatMap_const _ _ sel.width hinner, hziplen]
  · intro i j hi hj
    obtain ⟨rid, hrid⟩ := Option.isSome_iff_exists.mp (hrow i hi)
    obtain ⟨c, hc⟩ := Option.isSome_iff_exists.mp (hcol j hj)
    have hirows : i < st2.about_to_paste_rows.length := by omega
    have hiris : i < ris.length := by omega
    have hjcts : j < cts.length := by omega
    have hrowmem : st2.about_to_paste_rows.get ⟨i, hirows⟩ ∈ st2.about_to_paste_rows :=
      List.get_mem _ _ hirows
    have hrowilen : (st2.about_to_paste_rows.get ⟨i, hirows⟩).length = sel.width :=
      hwidth _ hrowmem
    have hjcell : j < (st2.about_to_paste_rows.get ⟨i, hirows⟩).length := by omega
    -- identify the resolved row uid at position i
    have e1 := congrArg (fun l => l[i]?) hris
    simp only [List.getElem?_map, List.getElem?_range hi, Option.map_some'] at e1
    rw [hrid, List.getElem?_eq_getElem hiris] at e1
    simp only [Option.map_some', Option.some.injEq] at e1
    -- identify the resolved column uid/type at position j
    have e2 := congrArg (fun l => l[j]?) hcts
    simp only [List.getElem?_map, List.getElem?_range hj, Option.map_some'] at e2
    rw [hc, List.getElem?_eq_getElem hjcts] at e2
    simp only [Option.map_some', Option.some.injEq] at e2
    refine ⟨rid, c, st2.about_to_paste_rows.get ⟨i, hirows⟩,
      (st2.about_to_paste_rows.get ⟨i, hirows⟩).get ⟨j, hjcell⟩, hrid, hc, ?_, ?_, ?_⟩
    · rw [List.getElem?_eq_getElem hirows]; simp [List.get_eq_getElem]
    · rw [List.getElem?_eq_getElem hjcell]; simp [List.get_eq_getElem]
    · rw [hwrites, getElem?_flatMap_const _ _ sel.width hinner i j (by omega) hj]
      have hzipget : (ris.zip st2.about_to_paste_rows).get ⟨i, by omega⟩ =
          (ris.get ⟨i, hiris⟩, st2.about_to_paste_rows.get ⟨i, hirows⟩) := by
        simp [List.get_eq_getElem, List.getElem_zip]
      rw [hzipget]
      rw [List.getElem?_map,
        getElem?_zip_some cts _ j (cts.get ⟨j, hjcts⟩)
          ((st2.about_to_paste_rows.get ⟨i, hirows⟩).get ⟨j, hjcell⟩)
          (by rw [List.getElem?_eq_getElem hjcts]; simp [List.get_eq_getElem])
          (by rw [List.getElem?_eq_getElem hjcell]; simp [List.get_eq_getElem])]
      simp only [Option.map_some', Option.some.injEq]
      rw [show ris.get ⟨i, hiris⟩ = rid by simp only [List.get_eq_getElem]; exact e1.symm,
        show cts.get ⟨j, hjcts⟩ = (c.col_uid, c.ty) by
          simp only [List.get_eq_getElem]; exact e2.symm]

/-- Claim C7: for a clipboard block whose parsed shape exactly matches the
selection (all rows of equal length, height and width equal to the
selection's), with every selected row and column index resolving,
`handle_paste` applies the paste immediately without opening the modal, and
writes exactly height*width cells, the cell from block position (i, j) being
written at (uid of selected row i, uid of selected column j), converted to
that column's declared type. -/
theorem C7_exact_fit_paste {VTy Val : Type} (fromStr : List Char → VTy → Val)
    (rowUidFn createRowFn : Nat → Option Nat) (st : StateModel VTy)
    (sel : SelectedRange) (text : List Char)
    (hsel : st.selected_range = some sel)
    (hheight : (parsePasteText text).length = sel.height)
    (hwidth : ∀ row ∈ parsePasteText text, row.length = sel.width)
    (hrow : ∀ i, i < sel.height → (rowUidFn (i + sel.row_start)).isSome)
    (hcol : ∀ j, j < sel.width → (st.columns[j + sel.col_start]?).isSome) :
    ∃ writes : List (CellCoord × Val),
      (handlePaste fromStr rowUidFn createRowFn st text).2 =
        PasteOutcome.appliedImmediately writes ∧
      writes.length = sel.height * sel.width ∧
      ∀ i j, i < sel.height → j < sel.width →
        ∃ rid c row cell,
          rowUidFn (i + sel.row_start) = some rid ∧
          st.columns[j + sel.col_start]? = some c ∧
          (parsePasteText text)[i]? = some row ∧ row[j]? = some cell ∧
          writes[i * sel.width + j]? = some (⟨rid, c.col_uid⟩, fromStr cell c.ty) := by
  have hpos : 0 < sel.height := by unfold SelectedRange.height; omega
  have hne : parsePasteText text ≠ [] := by
    intro h
    rw [h] at hheight
    simp at hheight
    omega
  have hempty : (parsePasteText text).isEmpty = false := by
    cases h : parsePasteText text with
    | nil => exact absurd h hne
    | cons a t => simp
  have hwh : pasteWidthHoles (parsePasteText text) = (sel.width, true) :=
    pasteWidthHoles_const _ _ hne hwidth
  have hm := pasteBlock_exact fromStr rowUidFn createRowFn
    { st with
        pasting_block_width := sel.width
        pasting_block_with_holes := !true
        about_to_paste_rows := parsePasteText text } sel
    (by simpa using hsel) (by simpa using hheight) (by simpa using hwidth) hrow
    (by simpa using hcol)
  refine ⟨_, ?_, hm.1, ?_⟩
  · simp only [handlePaste, hempty, Bool.false_eq_true, if_false, hwh, hheight, hsel,
      beq_self_eq_true, Bool.and_self, Bool.true_and, Bool.and_true, if_true]
  · intro i j hi hj
    simpa using hm.2 i j hi hj

/-- Witness for C7: a concrete 2x2 paste into a 2x2 selection. -/
theorem C7_exact_fit_paste_witness :
    (({ columns := [⟨6, ()⟩, ⟨7, ()⟩], selected_range := some (SelectedRange.rect 2 2),
        about_to_paste_rows := [], pasting_block_with_holes := false,
        pasting_block_width := 0, create_rows_on_paste := false,
        fill_with_same_on_paste := false,
        create_adhoc_cols_on_paste := false } : StateModel Unit).selected_range
      = some (SelectedRange.rect 2 2)) ∧
    (parsePasteText ['p', '\t', 'q', '\n', 'r', '\t', 's']).length
      = (SelectedRange.rect 2 2).height ∧
    ∃ writes : List (CellCoord × List Char),
      (handlePaste (fun (s : List Char) (_ : Unit) => s) (fun i => some (10 + i)) (fun _ => none)
        { columns := [⟨6, ()⟩, ⟨7, ()⟩], selected_range := some (SelectedRange.rect 2 2),
          about_to_paste_rows := [], pasting_block_with_holes := false,
          pasting_block_width := 0, create_rows_on_paste := false,
          fill_with_same_on_paste := false, create_adhoc_cols_on_paste := false }
        ['p', '\t', 'q', '\n', 'r', '\t', 's']).2 =
        PasteOutcome.appliedImmediately writes ∧
      writes.length = (SelectedRange.rect 2 2).height * (SelectedRange.rect 2 2).width ∧
      ∀ i j, i < (SelectedRange.rect 2 2).height → j < (SelectedRange.rect 2 2).width →
        ∃ rid c row cell,
          (fun i => some (10 + i)) (i + (SelectedRange.rect 2 2).row_start) = some rid ∧
          ([⟨6, ()⟩, ⟨7, ()⟩] : List (UiColumnModel Unit))[j +
            (SelectedRange.rect 2 2).col_start]? = some c ∧
          (parsePasteText ['p', '\t', 'q', '\n', 'r', '\t', 's'])[i]? = some row ∧
          row[j]? = some cell ∧
          writes[i * (SelectedRange.rect 2 2).width + j]? =
            some (⟨rid, c.col_uid⟩, (fun (s : List Char) (_ : Unit) => s) cell c.ty) :=
  ⟨by decide, by decide,
    C7_exact_fit_paste (fun s _ => s) (fun i => some (10 + i)) (fun _ => none) _ _ _
      (by decide) (by decide) (by decide) (by decide) (by decide)⟩

/-- Claim C8: committing a 1x1 pending block against a 2x3 selection (2 rows,
3 columns) with `fill_with_same_on_paste` enabled writes all 6 destination
cells, each receiving the block's single cell converted to the destination
column's declared type (block rows and cells are cycled with modulo
wraparound over the selection extent). -/
theorem C8_cycle_fill {VTy Val : Type} (fromStr : List Char → VTy → Val)
    (rowUidFn createRowFn : Nat → Option Nat) (st : StateModel VTy)
    (sel : SelectedRange) (x : List Char) (r0 r1 : Nat) (c0 c1 c2 : UiColumnModel VTy)
    (hsel : st.selected_range = some sel)
    (hh : sel.row_end = sel.row_start + 1)
    (hw : sel.col_end = sel.col_start + 2)
    (hblock : st.about_to_paste_rows = [[x]])
    (hfill : st.fill_with_same_on_paste = true)
    (hr0 : rowUidFn sel.row_start = some r0)
    (hr1 : rowUidFn (sel.row_start + 1) = some r1)
    (hc0 : st.columns[sel.col_start]? = some c0)
    (hc1 : st.columns[sel.col_start + 1]? = some c1)
    (hc2 : st.columns[sel.col_start + 2]? = some c2) :
    (pasteBlock fromStr rowUidFn createRowFn st).2 =
      [(⟨r0, c0.col_uid⟩, fromStr x c0.ty), (⟨r0, c1.col_uid⟩, fromStr x c1.ty),
       (⟨r0, c2.col_uid⟩, fromStr x c2.ty), (⟨r1, c0.col_uid⟩, fromStr x c0.ty),
       (⟨r1, c1.col_uid⟩, fromStr x c1.ty), (⟨r1, c2.col_uid⟩, fromStr x c2.ty)] := by
  have hheight : sel.height = 2 := by unfold SelectedRange.height; omega
  have hwidth : sel.width = 3 := by unfold SelectedRange.width; omega
  have hfillc : pasteWritesFill fromStr [some r0, some r1]
      [some (c0.col_uid, c0.ty), some (c1.col_uid, c1.ty), some (c2.col_uid, c2.ty)]
      [[x]] =
      [(⟨r0, c0.col_uid⟩, fromStr x c0.ty), (⟨r0, c1.col_uid⟩, fromStr x c1.ty),
       (⟨r0, c2.col_uid⟩, fromStr x c2.ty), (⟨r1, c0.col_uid⟩, fromStr x c0.ty),
       (⟨r1, c1.col_uid⟩, fromStr x c1.ty), (⟨r1, c2.col_uid⟩, fromStr x c2.ty)] := by
    simp [pasteWritesFill, cycleTake, List.range_succ]
  have hrg2 : List.range 2 = [0, 1] := rfl
  have hrg3 : List.range 3 = [0, 1, 2] := rfl
  have h1r : (1 : Nat) + sel.row_start = sel.row_start + 1 := Nat.add_comm 1 _
  have h1c : (1 : Nat) + sel.col_start = sel.col_start + 1 := Nat.add_comm 1 _
  have h2c : (2 : Nat) + sel.col_start = sel.col_start + 2 := Nat.add_comm 2 _
  simp only [pasteBlock, hsel, hheight, hwidth, hblock, hfill, hrg2, hrg3,
    List.map_cons, List.map_nil, Nat.zero_add, h1r, h1c, h2c, hr0, hr1, hc0, hc1, hc2,
    List.length_cons, List.length_nil, Option.map_some']
  simp only [show ¬((1 : Nat) > 2) by omega, decide_False, Bool.and_false,
    Bool.false_eq_true, if_false, if_true]
  exact hfillc

/-- Witness for C8: a concrete 1x1 block pasted into a concrete 2x3
selection with fill enabled. -/
theorem C8_cycle_fill_witness :
    (pasteBlock (fun (s : List Char) (_ : Unit) => s) (fun i => some i) (fun _ => none)
      { columns := [⟨3, ()⟩, ⟨4, ()⟩, ⟨5, ()⟩],
        selected_range := some ⟨5, 6, 0, 2, false⟩,
        about_to_paste_rows := [[['X']]], pasting_block_with_holes := false,
        pasting_block_width := 1, create_rows_on_paste := false,
        fill_with_same_on_paste := true, create_adhoc_cols_on_paste := false }).2 =
      [(⟨5, 3⟩, ['X']), (⟨5, 4⟩, ['X']), (⟨5, 5⟩, ['X']),
       (⟨6, 3⟩, ['X']), (⟨6, 4⟩, ['X']), (⟨6, 5⟩, ['X'])] :=
  C8_cycle_fill (fun s _ => s) (fun i => some i) (fun _ => none) _ ⟨5, 6, 0, 2, false⟩
    ['X'] 5 6 ⟨3, ()⟩ ⟨4, ()⟩ ⟨5, ()⟩ rfl rfl rfl rfl rfl rfl rfl rfl rfl rfl

/-- Claim C6 evaluated at the failing input: pasting the empty clipboard
string with a 1x1 selection at (0,0), a resolvable row uid 4 and one column
(uid 7), is not a no-op. Splitting the empty string yields one row holding
one empty cell, so the `rows.is_empty()` guard never fires, the 1x1 block
exactly fits the 1x1 selection, and one backend cell is written (the empty
string converted to the column type). -/
theorem C6_empty_paste_failing_input :
    (handlePaste (fun (s : List Char) (_ : Unit) => s)
      (fun i => if i == 0 then some 4 else none) (fun _ => none)
      { columns := [⟨7, ()⟩], selected_range := some (SelectedRange.single_cell 0 0),
        about_to_paste_rows := [], pasting_block_with_holes := false,
        pasting_block_width := 0, create_rows_on_paste := false,
        fill_with_same_on_paste := false, create_adhoc_cols_on_paste := false }
      []).2 = .appliedImmediately [(⟨4, 7⟩, [])] := by decide

/-- `BackendColumn` (tabular_core): column metadata; the `ty` string is
produced by the external `Display` formatter, passed in as `tyFormat`. -/
structure BackendColumnModel where
  name : List Char
  synonyms : List (List Char)
  ty : List Char
  is_sortable : Bool
  is_required : Bool
  is_used : Bool
  is_skipped : Bool
  deriving DecidableEq, Repr

/-- `VariantColumn` in `src/backends/variant.rs`: declared value type and
optional default value. -/
structure VariantColumnModel (VTy Val : Type) where
  ty : VTy
  default : Option Val
  deriving DecidableEq, Repr

/-- `VariantBackend` (`src/backends/variant.rs`), with `HashMap`/`HashSet` as
association lists (insert replaces, lookup takes the first match), and the
one-shot flags restricted to the two the embedded operations touch. `Meta`
is the cell metadata type (kept abstract: no embedded operation reads it). -/
structure VariantBackendModel (VTy Val Meta : Type) where
  cell_data : List (CellCoord × Val)
  cell_metadata : List (CellCoord × Meta)
  row_order : List Nat
  skipped_rows : List Nat
  next_row_uid : Nat
  columns : List (Nat × BackendColumnModel × VariantColumnModel VTy Val)
  flag_row_set_updated : Bool
  flag_columns_reset : Bool
  deriving DecidableEq, Repr

/-- `HashMap::insert`: replace any existing binding for the key. -/
def insertAssoc {Val : Type} (k : CellCoord) (v : Val) (m : List (CellCoord × Val)) :
    List (CellCoord × Val) :=
  (k, v) :: m.filter fun p => !(p.1 == k)

/-- `VariantBackend::new`: columns receive uids 0..n-1 in order; the
`columns_reset` and `row_set_updated` one-shot flags start set. -/
def VariantBackendModel.new {VTy Val Meta : Type} (tyFormat : VTy → List Char)
    (cols : List (List Char × VTy × Option Val)) : VariantBackendModel VTy Val Meta :=
  { cell_data := []
    cell_metadata := []
    row_order := []
    skipped_rows := []
    next_row_uid := 0
    columns := cols.enum.map fun ic =>
      (ic.1,
        { name := ic.2.1, synonyms := [], ty := tyFormat ic.2.2.1, is_sortable := true,
          is_required := true, is_used := true, is_skipped := false },
        { ty := ic.2.2.1, default := ic.2.2.2 })
    flag_row_set_updated := true
    flag_columns_reset := true }

/-- `VariantBackend::insert_row`: store the provided values at the fresh row
uid, fill unprovided columns that declare a default, append the uid to the
row order, set the row-set flag, bump the counter, return the new uid. -/
def VariantBackendModel.insert_row {VTy Val Meta : Type}
    (b : VariantBackendModel VTy Val Meta) (values : List (Nat × Val)) :
    VariantBackendModel VTy Val Meta × Nat :=
  let provided := values.map Prod.fst
  let data1 := values.foldl
    (fun m cv => insertAssoc ⟨b.next_row_uid, cv.1⟩ cv.2 m) b.cell_data
  let data2 := b.columns.foldl
    (fun m entry =>
      match entry.2.2.default with
      | some d =>
        if provided.contains entry.1 then m
        else insertAssoc ⟨b.next_row_uid, entry.1⟩ d m
      | none => m)
    data1
  ({ b with
      cell_data := data2
      row_order := b.row_order ++ [b.next_row_uid]
      flag_row_set_updated := true
      next_row_uid := b.next_row_uid + 1 }, b.next_row_uid)

/-- `VariantBackend::clear` (`TableBackend` impl): drop all cell data, cell
metadata and the row order, set the row-set flag, and reset the uid counter
to 0. Columns and skipped-row marks are untouched. -/
def VariantBackendModel.clear {VTy Val Meta : Type}
    (b : VariantBackendModel VTy Val Meta) : VariantBackendModel VTy Val Meta :=
  { b with
      cell_data := []
      cell_metadata := []
      row_order := []
      flag_row_set_updated := true
      next_row_uid := 0 }

/-- `VariantBackend::insert_column`: explicit uid, or max existing uid plus
one (0 for an empty column set); insert replaces. -/
def VariantBackendModel.insert_column {VTy Val Meta : Type} (tyFormat : VTy → List Char)
    (b : VariantBackendModel VTy Val Meta) (col_uid : Option Nat) (name : List Char)
    (synonyms : List (List Char)) (ty : VTy) (default : Option Val)
    (is_required is_used : Bool) : VariantBackendModel VTy Val Meta × Nat :=
  let uid :=
    match col_uid with
    | some u => u
    | none =>
      match (b.columns.map Prod.fst).max? with
      | some m => m + 1
      | none => 0
  ({ b with
      columns := (uid,
        ({ name := name, synonyms := synonyms, ty := tyFormat ty, is_sortable := true,
           is_required := is_required, is_used := is_used,
           is_skipped := false } : BackendColumnModel),
        ({ ty := ty, default := default } : VariantColumnModel VTy Val))
        :: b.columns.filter fun p => !(p.1 == uid)
      flag_columns_reset := true }, uid)

/-- `VariantBackend::remove_all_columns`: drop the column set, then `clear`,
then set the columns-reset flag. -/
def VariantBackendModel.remove_all_columns {VTy Val Meta : Type}
    (b : VariantBackendModel VTy Val Meta) : VariantBackendModel VTy Val Meta :=
  { ({ b with columns := [] } : VariantBackendModel VTy Val Meta).clear with
      flag_columns_reset := true }

/-- `VariantBackend::skip_row`: insert into or remove from the skipped set. -/
def VariantBackendModel.skip_row {VTy Val Meta : Type}
    (b : VariantBackendModel VTy Val Meta) (row_uid : Nat) (skipped : Bool) :
    VariantBackendModel VTy Val Meta :=
  if skipped then
    { b with skipped_rows :=
        if b.skipped_rows.contains row_uid then b.skipped_rows
        else row_uid :: b.skipped_rows }
  else
    { b with skipped_rows := b.skipped_rows.filter fun u => !(u == row_uid) }

/-- `VariantBackend::skip_col`: set the `is_skipped` flag of the column. -/
def VariantBackendModel.skip_col {VTy Val Meta : Type}
    (b : VariantBackendModel VTy Val Meta) (col_uid : Nat) (skipped : Bool) :
    VariantBackendModel VTy Val Meta :=
  { b with columns := b.columns.map fun p =>
      if p.1 == col_uid then (p.1, { p.2.1 with is_skipped := skipped }, p.2.2) else p }

/-- `VariantBackend::set` (`TableBackend` impl): insert one cell value. -/
def VariantBackendModel.set {VTy Val Meta : Type}
    (b : VariantBackendModel VTy Val Meta) (coord : CellCoord) (v : Val) :
    VariantBackendModel VTy Val Meta :=
  { b with cell_data := insertAssoc coord v b.cell_data }

/-- `VariantBackend::get` (`TableBackend` impl): cell lookup. -/
def VariantBackendModel.get {VTy Val Meta : Type}
    (b : VariantBackendModel VTy Val Meta) (coord : CellCoord) : Option Val :=
  (b.cell_data.find? fun p => p.1 == coord).map Prod.snd

/-- `VariantBackend::clear_metadata`. -/
def VariantBackendModel.clear_metadata {VTy Val Meta : Type}
    (b : VariantBackendModel VTy Val Meta) : VariantBackendModel VTy Val Meta :=
  { b with cell_metadata := [] }

/-- `TableBackend::row_count` for `VariantBackend`. -/
def VariantBackendModel.row_count {VTy Val Meta : Type}
    (b : VariantBackendModel VTy Val Meta) : Nat := b.row_order.length

/-- `TableBackend::row_uid` for `VariantBackend`. -/
def VariantBackendModel.row_uid {VTy Val Meta : Type}
    (b : VariantBackendModel VTy Val Meta) (idx : Nat) : Option Nat := b.row_order[idx]?

/-- The `VariantBackend` operations considered in the RowUid claim
(`create_row` is `Some(insert_row)`). -/
inductive BackendOp (VTy Val : Type) where
  | insertRowOp (values : List (Nat × Val))
  | createRowOp (values : List (Nat × Val))
  | clearOp
  | removeAllColumnsOp
  | skipRowOp (row_uid : Nat) (skipped : Bool)
  | skipColOp (col_uid : Nat) (skipped : Bool)
  | setOp (coord : CellCoord) (v : Val)
  | insertColumnOp (col_uid : Option Nat) (name : List Char)
      (synonyms : List (List Char)) (ty : VTy) (default : Option Val)
      (is_required is_used : Bool)
  | clearMetadataOp
  deriving DecidableEq, Repr

/-- One backend operation; the second component is the row uid returned when
the operation creates a row. -/
def backendStep {VTy Val Meta : Type} (tyFormat : VTy → List Char)
    (b : VariantBackendModel VTy Val Meta) :
    BackendOp VTy Val → VariantBackendModel VTy Val Meta × Option Nat
  | .insertRowOp values => ((b.insert_row values).1, some (b.insert_row values).2)
  | .createRowOp values => ((b.insert_row values).1, some (b.insert_row values).2)
  | .clearOp => (b.clear, none)
  | .removeAllColumnsOp => (b.remove_all_columns, none)
  | .skipRowOp u s => (b.skip_row u s, none)
  | .skipColOp u s => (b.skip_col u s, none)
  | .setOp coord v => (b.set coord v, none)
  | .insertColumnOp u n syns ty d req used =>
    ((VariantBackendModel.insert_column tyFormat b u n syns ty d req used).1, none)
  | .clearMetadataOp => (b.clear_metadata, none)

/-- Run a sequence of backend operations, collecting every row uid returned
by row creation, in order. -/
def backendRun {VTy Val Meta : Type} (tyFormat : VTy → List Char)
    (b : VariantBackendModel VTy Val Meta) :
    List (BackendOp VTy Val) → VariantBackendModel VTy Val Meta × List Nat
  | [] => (b, [])
  | op :: ops =>
    let r := backendStep tyFormat b op
    let rest := backendRun tyFormat r.1 ops
    (rest.1, r.2.toList ++ rest.2)

/-- Operations that reset the row uid counter: `clear`, and
`remove_all_columns` (which calls `clear`). -/
def resetsRowUids {VTy Val : Type} : BackendOp VTy Val → Bool
  | .clearOp => true
  | .removeAllColumnsOp => true
  | _ => false

theorem backendStep_next_mono {VTy Val Meta : Type} (tyFormat : VTy → List Char)
    (b : VariantBackendModel VTy Val Meta) (op : BackendOp VTy Val)
    (h : resetsRowUids op = false) :
    b.next_row_uid ≤ (backendStep tyFormat b op).1.next_row_uid := by
  cases op <;>
    simp_all [backendStep, resetsRowUids, VariantBackendModel.insert_row,
      VariantBackendModel.skip_row, VariantBackendModel.skip_col,
      VariantBackendModel.set, VariantBackendModel.insert_column,
      VariantBackendModel.clear_metadata]
  split_ifs <;> simp

theorem backendStep_created {VTy Val Meta : Type} (tyFormat : VTy → List Char)
    (b : VariantBackendModel VTy Val Meta) (op : BackendOp VTy Val) (u : Nat)
    (hu : (backendStep tyFormat b op).2 = some u) :
    u = b.next_row_uid ∧
    (backendStep tyFormat b op).1.next_row_uid = b.next_row_uid + 1 := by
  cases op <;> simp_all [backendStep, VariantBackendModel.insert_row]

/-- Claim C5 (amended): within one session, for every sequence of
`VariantBackend` operations that does not contain `clear` (or
`remove_all_columns`, which calls `clear`), the row uids returned by row
creation are strictly increasing in order of creation — each is strictly
greater than every earlier one, and none is ever assigned twice — and all of
them are at least the starting `next_row_uid`. (`clear` resets the counter
to 0, so uids are reused after a `clear`.) -/
theorem C5_rowuid_monotone {VTy Val Meta : Type} (tyFormat : VTy → List Char)
    (b : VariantBackendModel VTy Val Meta) (ops : List (BackendOp VTy Val))
    (hops : ∀ op ∈ ops, resetsRowUids op = false) :
    (backendRun tyFormat b ops).2.Pairwise (· < ·) ∧
    (backendRun tyFormat b ops).2.Nodup ∧
    ∀ u ∈ (backendRun tyFormat b ops).2, b.next_row_uid ≤ u := by
  have main : (backendRun tyFormat b ops).2.Pairwise (· < ·) ∧
      ∀ u ∈ (backendRun tyFormat b ops).2, b.next_row_uid ≤ u := by
    induction ops generalizing b with
    | nil => simp [backendRun]
    | cons op ops ih =>
      have hop := hops op (List.mem_cons_self _ _)
      have hops' : ∀ o ∈ ops, resetsRowUids o = false := fun o ho =>
        hops o (List.mem_cons_of_mem _ ho)
      obtain ⟨ihp, ihb⟩ := ih (backendStep tyFormat b op).1 hops'
      cases hc : (backendStep tyFormat b op).2 with
      | none =>
        constructor
        · simpa [backendRun, hc] using ihp
        · intro u hu
          simp only [backendRun, hc, Option.toList_none, List.nil_append] at hu
          exact le_trans (backendStep_next_mono tyFormat b op hop) (ihb u hu)
      | some v =>
        obtain ⟨hv, hnext⟩ := backendStep_created tyFormat b op v hc
        constructor
        · simp only [backendRun, hc, Option.toList_some, List.singleton_append]
          refine List.Pairwise.cons ?_ ihp
          intro u hu
          have := ihb u hu
          omega
        · intro u hu
          simp only [backendRun, hc, Option.toList_some, List.singleton_append,
            List.mem_cons] at hu
          cases hu with
          | inl h => omega
          | inr h => have := ihb u h; omega
  exact ⟨main.1, main.1.imp fun h => Nat.ne_of_lt h, main.2⟩

/-- Claim C5, counterexample: `clear` resets `next_row_uid` to 0, so the
sequence insert_row; clear; insert_row returns row uid 0 twice within one
session — the claimed session-wide strict monotonicity and non-reuse fail. -/
theorem C5_counterexample :
    (backendRun (fun _ => [])
      ((VariantBackendModel.new (fun _ => []) []) :
        VariantBackendModel Unit Unit Unit)
      [.insertRowOp [], .clearOp, .insertRowOp []]).2 = [0, 0] ∧
    ¬ ((backendRun (fun _ => [])
      ((VariantBackendModel.new (fun _ => []) []) :
        VariantBackendModel Unit Unit Unit)
      [.insertRowOp [], .clearOp, .insertRowOp []]).2.Pairwise (· < ·)) := by
  decide

/-- Witness for C5: a clear-free run over a backend with one defaulted
column produces strictly increasing row uids. -/
theorem C5_rowuid_monotone_witness :
    (∀ op ∈ ([.insertRowOp [], .skipRowOp 0 true, .insertRowOp [(0, ())],
        .setOp ⟨0, 0⟩ (), .createRowOp []] : List (BackendOp Unit Unit)),
      resetsRowUids op = false) ∧
    (backendRun (fun _ => [])
      ((VariantBackendModel.new (fun _ => []) [(['a'], (), some ())]) :
        VariantBackendModel Unit Unit Unit)
      [.insertRowOp [], .skipRowOp 0 true, .insertRowOp [(0, ())],
        .setOp ⟨0, 0⟩ (), .createRowOp []]).2.Pairwise (· < ·) :=
  ⟨by decide, (C5_rowuid_monotone (fun _ => [])
    (VariantBackendModel.new (fun _ => []) [(['a'], (), some ())])
    [.insertRowOp [], .skipRowOp 0 true, .insertRowOp [(0, ())],
      .setOp ⟨0, 0⟩ (), .createRowOp []] (by decide)).1⟩

/-- Claim C9: `VariantBackend::clear` removes all cell data, all cell
metadata and the entire row ordering — the row count becomes 0 and every
cell read returns no entry — while the column schema (the full column list:
uids, names, synonyms, type strings, declared types and default values) is
identical before and after. -/
theorem C9_clear_preserves_schema {VTy Val Meta : Type}
    (b : VariantBackendModel VTy Val Meta) :
    b.clear.cell_data = [] ∧ b.clear.cell_metadata = [] ∧ b.clear.row_order = [] ∧
    b.clear.row_count = 0 ∧ (∀ coord, b.clear.get coord = none) ∧
    b.clear.columns = b.columns :=
  ⟨rfl, rfl, rfl, rfl, fun _ => rfl, rfl⟩

/-- `RequiredColumn` (`src/importers/required_column.rs`); the `synonyms`
builder lowercases the synonym strings at construction. -/
structure RequiredColumnModel (VTy Val : Type) where
  name : List Char
  synonyms : List (List Char)
  ty : VTy
  default : Option Val
  deriving DecidableEq, Repr

/-- Rust `str::to_lowercase` (character-wise). -/
def toLowerChars (s : List Char) : List Char := s.map Char.toLower

/-- `RequiredColumn::contains_in_synonyms`: exact (case-sensitive) search of
`name` among the stored synonyms. -/
def RequiredColumnModel.contains_in_synonyms {VTy Val : Type}
    (c : RequiredColumnModel VTy Val) (name : List Char) : Bool :=
  (c.synonyms.find? fun s => s == name).isSome

/-- `RequiredColumns::new`: required columns receive uids 0..n-1 in order. -/
def requiredColumnsNew {VTy Val : Type} (cols : List (RequiredColumnModel VTy Val)) :
    List (Nat × RequiredColumnModel VTy Val) :=
  cols.enum.map fun ic => (ic.1, ic.2)

/-- `RequiredColumns::map_columns`: for each required column in order, find
the first discovered header equal to the lowercased required-column name, or
equal to one of the stored synonyms — the discovered header itself is not
lowercased — and record its index. -/
def mapRequiredColumns {VTy Val : Type}
    (required_columns : List (Nat × RequiredColumnModel VTy Val))
    (column_names : List (List Char)) :
    List ((Nat × RequiredColumnModel VTy Val) × Option Nat) :=
  required_columns.map fun uc =>
    let col_name_lower := toLowerChars uc.2.name
    match column_names.enum.find? fun inn =>
        inn.2 == col_name_lower || uc.2.contains_in_synonyms inn.2 with
    | some inn => (uc, some inn.1)
    | none => (uc, none)

/-- `HashMap<usize, ColumnUid>::insert` (replacing). -/
def insertNatAssoc (k v : Nat) (m : List (Nat × Nat)) : List (Nat × Nat) :=
  (k, v) :: m.filter fun p => !(p.1 == k)

/-- `HashMap<usize, ColumnUid>::get`. -/
def lookupNatAssoc (m : List (Nat × Nat)) (k : Nat) : Option Nat :=
  (m.find? fun p => p.1 == k).map Prod.snd

/-- `CsvImporter::map_columns`: required columns are inserted into the
backend first, with their stable uids (a double match is only warned about —
the insert replaces); then every csv column that was not matched becomes an
adhoc column, with uids counting up from the number of required columns, in
csv order. Returns the csv-index-to-uid map and the updated backend. `strTy`
is the importer's `VariantTy::Str`. -/
def csvMapColumns {VTy Val Meta : Type} (tyFormat : VTy → List Char) (strTy : VTy)
    (required_columns : List (Nat × RequiredColumnModel VTy Val))
    (csv_columns : List (List Char)) (backend : VariantBackendModel VTy Val Meta) :
    List (Nat × Nat) × VariantBackendModel VTy Val Meta :=
  let mapped := mapRequiredColumns required_columns csv_columns
  let step1 := mapped.foldl
    (fun acc m =>
      let m1 :=
        match m.2 with
        | some csv_col_idx => insertNatAssoc csv_col_idx m.1.1 acc.1
        | none => acc.1
      (m1, (VariantBackendModel.insert_column tyFormat acc.2 (some m.1.1)
        m.1.2.name m.1.2.synonyms m.1.2.ty m.1.2.default true true).1))
    (([] : List (Nat × Nat)), backend)
  let fin := csv_columns.enum.foldl
    (fun (acc : (List (Nat × Nat) × VariantBackendModel VTy Val Meta) × Nat) ic =>
      if (lookupNatAssoc acc.1.1 ic.1).isSome then acc
      else
        ((insertNatAssoc ic.1 acc.2 acc.1.1,
          (VariantBackendModel.insert_column tyFormat acc.1.2 (some acc.2) ic.2 []
            strTy none false false).1), acc.2 + 1))
    (step1, mapped.length)
  fin.1

/-- Claim C4 evaluated at the failing input: with required columns
Name and Count (no synonyms) and discovered headers count, NAME, Extra, the
matcher leaves the Name requirement (uid 0) unmatched — only the required
name is lowercased, the discovered header NAME is compared case-sensitively —
while count does match the Count requirement (uid 1). Consequently the csv
importer assigns header NAME (csv index 1) an adhoc uid 2 instead of the
Name requirement's uid 0. The claim (and spec) require case-insensitive
matching, under which NAME would match Name. -/
theorem C4_case_sensitive_matching_failing_input :
    ((mapRequiredColumns (requiredColumnsNew
        [(⟨['N', 'a', 'm', 'e'], [], (), none⟩ : RequiredColumnModel Unit Unit),
          ⟨['C', 'o', 'u', 'n', 't'], [], (), none⟩])
        [['c', 'o', 'u', 'n', 't'], ['N', 'A', 'M', 'E'], ['E', 'x', 't', 'r', 'a']]).map
      fun m => (m.1.1, m.2)) = [(0, none), (1, some 0)] ∧
    lookupNatAssoc (csvMapColumns (fun _ => []) ()
      (requiredColumnsNew
        [(⟨['N', 'a', 'm', 'e'], [], (), none⟩ : RequiredColumnModel Unit Unit),
          ⟨['C', 'o', 'u', 'n', 't'], [], (), none⟩])
      [['c', 'o', 'u', 'n', 't'], ['N', 'A', 'M', 'E'], ['E', 'x', 't', 'r', 'a']]
      ((VariantBackendModel.new (fun _ => []) []) : VariantBackendModel Unit Unit Unit)).1 1 = some 2 := by
  decide

/-- `Separator` (`src/importers/csv.rs`). -/
inductive SeparatorModel where
  | auto
  | comma
  | tab
  | semicolon
  deriving DecidableEq, Repr

/-- Stable insertion by first component: keep elements with strictly smaller
keys in front, insert before the first element with an equal or larger key. -/
def sortedInsertFst (a : Nat × Nat) : List (Nat × Nat) → List (Nat × Nat)
  | [] => [a]
  | b :: t => if b.1 < a.1 then b :: sortedInsertFst a t else a :: b :: t

/-- Stable insertion sort by first component, matching Rust's stable
`sort_by(|a, b| a.0.cmp(&b.0))`. -/
def stableSortFst : List (Nat × Nat) → List (Nat × Nat)
  | [] => []
  | a :: t => sortedInsertFst a (stableSortFst t)

/-- One byte of the frequency pass in `determine_separator` with
`Separator::Auto` (44, 9, 59 are the byte values of comma, tab, semicolon):
increment the first component of the matching entry. -/
def autoCountsStep (cs : List (Nat × Nat)) (b : Nat) : List (Nat × Nat) :=
  match cs with
  | [a, t, s] =>
    if b == 44 then [(a.1 + 1, a.2), t, s]
    else if b == 9 then [a, (t.1 + 1, t.2), s]
    else if b == 59 then [a, t, (s.1 + 1, s.2)]
    else cs
  | other => other

/-- The byte-frequency pass of `determine_separator` with `Separator::Auto`:
the counts array is initialised to `[(0, b','), (1, b'\t'), (2, b';')]` —
note the initial first components are 0, 1 and 2, not all zero — and the
count of the matching entry is incremented for each of the first 1 MiB
bytes. -/
def autoCounts (bytes : List Nat) : List (Nat × Nat) :=
  (bytes.take (1024 * 1024)).foldl autoCountsStep [(0, 44), (1, 9), (2, 59)]

/-- `CsvImporter::determine_separator`: always `Some`; for `Auto`, sort the
(biased) counts ascending by count — Rust's `sort_by` is stable — and return
the byte of the entry at index 2. -/
def determine_separator (sep : SeparatorModel) (bytes : List Nat) : Option Nat :=
  some (match sep with
    | .auto => (((stableSortFst (autoCounts bytes))[2]?).getD (0, 0)).2
    | .comma => 44
    | .tab => 9
    | .semicolon => 59)

/-- `IoStatus` (`src/importers/csv.rs`), restricted to the separator path. -/
inductive IoStatusModel where
  | empty
  | loaded
  | unknownSeparator
  deriving DecidableEq, Repr

/-- The separator prologue of `CsvImporter::load` (the only place that sets
`IoStatus::UnknownSeparator`): the status set at this step, `none` when
loading proceeds. -/
def loadSeparatorStatus (sep : SeparatorModel) (bytes : List Nat) :
    Option IoStatusModel :=
  match determine_separator sep bytes with
  | some _ => none
  | none => some IoStatusModel.unknownSeparator

theorem sortedInsertFst_perm (a : Nat × Nat) (l : List (Nat × Nat)) :
    List.Perm (sortedInsertFst a l) (a :: l) := by
  induction l with
  | nil => exact List.Perm.refl _
  | cons b t ih =>
    unfold sortedInsertFst
    split
    · exact (ih.cons b).trans (List.Perm.swap a b t)
    · exact List.Perm.refl _

theorem stableSortFst_perm (l : List (Nat × Nat)) : List.Perm (stableSortFst l) l := by
  induction l with
  | nil => exact List.Perm.refl _
  | cons a t ih => exact (sortedInsertFst_perm a (stableSortFst t)).trans (ih.cons a)

theorem sortedInsertFst_pairwise (a : Nat × Nat) (l : List (Nat × Nat))
    (h : l.Pairwise fun x y => x.1 ≤ y.1) :
    (sortedInsertFst a l).Pairwise fun x y => x.1 ≤ y.1 := by
  induction l with
  | nil => simp [sortedInsertFst]
  | cons b t ih =>
    rw [List.pairwise_cons] at h
    unfold sortedInsertFst
    split
    · next hlt =>
      refine List.Pairwise.cons ?_ (ih h.2)
      intro x hx
      rw [(sortedInsertFst_perm a t).mem_iff] at hx
      rcases List.mem_cons.mp hx with rfl | hx
      · omega
      · exact h.1 x hx
    · next hge =>
      refine List.Pairwise.cons ?_ (List.Pairwise.cons h.1 h.2)
      intro x hx
      rcases List.mem_cons.mp hx with rfl | hx
      · omega
      · exact le_trans (by omega) (h.1 x hx)

theorem stableSortFst_pairwise (l : List (Nat × Nat)) :
    (stableSortFst l).Pairwise fun x y => x.1 ≤ y.1 := by
  induction l with
  | nil => simp [stableSortFst]
  | cons a t ih => exact sortedInsertFst_pairwise a (stableSortFst t) ih

theorem autoCountsStep_id (b : Nat) (cs : List (Nat × Nat))
    (h44 : b ≠ 44) (h9 : b ≠ 9) (h59 : b ≠ 59) : autoCountsStep cs b = cs := by
  rcases cs with _ | ⟨a, _ | ⟨t, _ | ⟨s, _ | ⟨x, rest⟩⟩⟩⟩ <;>
    simp [autoCountsStep, h44, h9, h59]

theorem autoCountsStep_length (cs : List (Nat × Nat)) (b : Nat)
    (h : cs.length = 3) : (autoCountsStep cs b).length = 3 := by
  obtain ⟨x, y, z, rfl⟩ := List.length_eq_three.mp h
  unfold autoCountsStep
  split_ifs <;> rfl

theorem autoCounts_length (bytes : List Nat) : (autoCounts bytes).length = 3 := by
  unfold autoCounts
  generalize bytes.take (1024 * 1024) = l
  have aux : ∀ (l : List Nat) (cs : List (Nat × Nat)), cs.length = 3 →
      (l.foldl autoCountsStep cs).length = 3 := by
    intro l
    induction l with
    | nil => intro cs h; simpa using h
    | cons b t ih =>
      intro cs h
      rw [List.foldl_cons]
      exact ih _ (autoCountsStep_length cs b h)
  exact aux l _ rfl

theorem autoCounts_no_candidates (bytes : List Nat)
    (h : ∀ b ∈ bytes.take (1024 * 1024), b ≠ 44 ∧ b ≠ 9 ∧ b ≠ 59) :
    autoCounts bytes = [(0, 44), (1, 9), (2, 59)] := by
  unfold autoCounts
  have aux : ∀ (l : List Nat) (cs : List (Nat × Nat)),
      (∀ b ∈ l, b ≠ 44 ∧ b ≠ 9 ∧ b ≠ 59) →
      l.foldl autoCountsStep cs = cs := by
    intro l
    induction l with
    | nil => intro cs _; rfl
    | cons b t ih =>
      intro cs hb
      obtain ⟨h44, h9, h59⟩ := hb b (List.mem_cons_self _ _)
      rw [List.foldl_cons, autoCountsStep_id b cs h44 h9 h59]
      exact ih cs fun x hx => hb x (List.mem_cons_of_mem _ hx)
  exact aux _ _ h

/-- Claim C10 (amended): `determine_separator` always yields a separator
(`Some` for every configuration and byte stream), so `load` never reaches
the `UnknownSeparator` status; when no candidate byte occurs in the sampled
window the result is the semicolon; but with `Auto` the selected candidate
maximises occurrences-plus-initial-offset (comma+0, tab+1, semicolon+2) over
the first 1 MiB, not the plain occurrence count. -/
theorem C10_separator_detection (sep : SeparatorModel) (bytes : List Nat) :
    (determine_separator sep bytes).isSome = true ∧
    loadSeparatorStatus sep bytes = none ∧
    (sep = SeparatorModel.auto →
      ∃ e, e ∈ autoCounts bytes ∧
        determine_separator SeparatorModel.auto bytes = some e.2 ∧
        ∀ e2 ∈ autoCounts bytes, e2.1 ≤ e.1) ∧
    (sep = SeparatorModel.auto →
      (∀ b ∈ bytes.take (1024 * 1024), b ≠ 44 ∧ b ≠ 9 ∧ b ≠ 59) →
      determine_separator SeparatorModel.auto bytes = some 59) := by
  refine ⟨rfl, rfl, ?_, ?_⟩
  · intro _
    have hlen : (stableSortFst (autoCounts bytes)).length = 3 := by
      rw [(stableSortFst_perm (autoCounts bytes)).length_eq, autoCounts_length]
    have h2 : (2 : Nat) < (stableSortFst (autoCounts bytes)).length := by omega
    refine ⟨(stableSortFst (autoCounts bytes)).get ⟨2, h2⟩, ?_, ?_, ?_⟩
    · rw [← (stableSortFst_perm (autoCounts bytes)).mem_iff]
      exact List.get_mem _ _ h2
    · simp only [determine_separator]
      rw [List.getElem?_eq_getElem h2]
      simp [List.get_eq_getElem]
    · intro e2 he2
      rw [← (stableSortFst_perm (autoCounts bytes)).mem_iff] at he2
      obtain ⟨⟨k, hk⟩, rfl⟩ := List.mem_iff_get.mp he2
      rcases Nat.lt_or_ge k 2 with hk2 | hk2
      · exact List.pairwise_iff_get.mp (stableSortFst_pairwise _) ⟨k, hk⟩ ⟨2, h2⟩ hk2
      · have : k = 2 := by omega
        subst this
        exact le_refl _
  · intro _ h
    simp only [determine_separator]
    rw [autoCounts_no_candidates bytes h]
    rfl

/-- Claim C10, counterexample: on the byte stream holding a single comma the
comma is the only candidate that occurs (count 1, tab and semicolon 0), yet
auto-detection returns the semicolon byte 59 — the counts start at 0, 1, 2
rather than all zero, so the comparison is biased. -/
theorem C10_counterexample :
    determine_separator SeparatorModel.auto [44] = some 59 ∧
    List.count 44 [44] = 1 ∧ List.count 9 [44] = 0 ∧ List.count 59 [44] = 0 := by
  decide

/-- Witness for C10: on a concrete stream the returned byte attains the
maximal biased count, and a stream with no candidate bytes yields 59. -/
theorem C10_separator_detection_witness :
    (∃ e, e ∈ autoCounts [44, 44, 59] ∧
      determine_separator SeparatorModel.auto [44, 44, 59] = some e.2 ∧
      ∀ e2 ∈ autoCounts [44, 44, 59], e2.1 ≤ e.1) ∧
    determine_separator SeparatorModel.auto [1, 2, 3] = some 59 :=
  ⟨(C10_separator_detection SeparatorModel.auto [44, 44, 59]).2.2.1 rfl,
    (C10_separator_detection SeparatorModel.auto [1, 2, 3]).2.2.2 rfl (by decide)⟩

/-- Claim C3 evaluated at the failing input: swapping columns 3 and 5 while a
single cell at column 3 is selected leaves the selection at column 3 (the
second `if` in `swap_col` immediately undoes the first), while a selection at
column 5 does move to column 3. The claim (and spec) require the selection at
column 3 to end at column 5. -/
theorem C3_swap_col_failing_input :
    (SelectedRange.single_cell 0 3).swap_col 3 5 = SelectedRange.single_cell 0 3 ∧
    (SelectedRange.single_cell 0 5).swap_col 3 5 = SelectedRange.single_cell 0 3 := by decide

end EguiTabular
